import Mathlib

/-!
CSR construction and benchmark lifecycle of `clsparse_bool_add.cpp`.

A shallow embedding of the class `benchmark::Add` of `src/clsparse_bool_add.cpp`.

* A `std::vector` is a list and an access `v[i]` is the lookup `v[i]?`: an access outside the
  vector makes the enclosing function return `none`.
* `clsparseIdx_t`, `size_t` and the element type of `Matrix::rows` and `Matrix::cols` are
  declared outside this file. Their values are natural numbers here: the embedding describes
  the runs in which no counter (the `int` loop counter `i`, the entries of `rowsPtr`, `sum`)
  leaves the range of its type.
* Calls into OpenCL, clSPARSE and the matrix loader are answered by explicit arguments
  (`Backend`, `Collaborators`) and by a ledger of the live device buffers (`DeviceMemory`).
* `BenchmarkBase::runBenchmark` lives in `benchmark_base.hpp`; its call sequence is modelled
  from the specification.
-/

namespace benchmark

/-! ## Definitions -/

/-- Modelled from the spec: the coordinate-form `Matrix` of `matrix_loader.hpp`
(fields `nrows`, `ncols`, `nvals` and the parallel row / column index sequences). -/
structure Matrix where
  nrows : Nat
  ncols : Nat
  nvals : Nat
  rows : List Nat
  cols : List Nat
deriving DecidableEq

/-- The counting loop of `setupExperiment`:
`for (auto i = 0; i < input.nvals; i++) { rowsPtr[input.rows[i]] += 1;
colsInd[i] = input.cols[i]; }`.
The first argument is the number of iterations still to run, the second the counter `i`. -/
def countLoop (input : Matrix) : Nat → Nat → List Nat → List Nat → Option (List Nat × List Nat)
  | 0, _, rowsPtr, colsInd => some (rowsPtr, colsInd)
  | k + 1, i, rowsPtr, colsInd =>
    match input.rows[i]? with
    | none => none
    | some r =>
      match rowsPtr[r]? with
      | none => none
      | some cnt =>
        match input.cols[i]? with
        | none => none
        | some c =>
          if i < colsInd.length then
            countLoop input k (i + 1) (rowsPtr.set r (cnt + 1)) (colsInd.set i c)
          else none

/-- The in-place exclusive prefix sum of `setupExperiment`:
`for (auto& r: rowsPtr) { prev = sum; sum += r; r = prev; }`, started with the running `sum`. -/
def prefixSum : Nat → List Nat → List Nat
  | _, [] => []
  | sum, r :: rest => sum :: prefixSum (sum + r) rest

/-- Lines 154-168 of `setupExperiment`: the host vectors `(rowsPtr, colsInd)` that are copied
into the device buffers `M.row_pointer` and `M.col_indices`. -/
def buildCsr (input : Matrix) : Option (List Nat × List Nat) :=
  let n := input.nrows
  match countLoop input input.nvals 0 (List.replicate (n + 1) 0)
      (List.replicate input.nvals 0) with
  | none => none
  | some (rowsPtr, colsInd) => some (prefixSum 0 rowsPtr, colsInd)

/-- Number of entries of `rows` smaller than `i`: the start offset of row `i`. -/
def rowOffset (rows : List Nat) (i : Nat) : Nat := rows.countP (fun r => decide (r < i))

/-- Column indices of the edges whose row is `i`, in input order. -/
def rowCols (rows cols : List Nat) (i : Nat) : List Nat :=
  ((rows.zip cols).filter (fun e => e.1 == i)).map Prod.snd

/-- A `cl_mem` handle of the OpenCL runtime; `0` is `nullptr`. -/
abbrev cl_mem := Nat

/-- The fields of `clsparseBoolCsrMatrix` that `Add` uses. -/
structure clsparseBoolCsrMatrix where
  num_rows : Nat
  num_cols : Nat
  num_nonzeros : Nat
  row_pointer : cl_mem
  col_indices : cl_mem
deriving DecidableEq

/-- The buffer objects alive in the OpenCL context, newest first, each with its contents, and
the handle given out last. -/
structure DeviceMemory where
  buffers : List (cl_mem × List Nat)
  lastHandle : cl_mem
deriving DecidableEq

/-- The call `::clCreateBuffer(clContext(), CL_MEM_READ_ONLY | CL_MEM_COPY_HOST_PTR, size, data,
&clStatus)`: when the runtime grants the request (`granted`) a new buffer holding a copy of
`data` is alive and its handle is returned, otherwise `nullptr` is returned. -/
def clCreateBuffer (granted : Bool) (data : List Nat) (dev : DeviceMemory) :
    cl_mem × DeviceMemory :=
  if granted then
    (dev.lastHandle + 1,
      { buffers := (dev.lastHandle + 1, data) :: dev.buffers, lastHandle := dev.lastHandle + 1 })
  else (0, dev)

/-- The call `clReleaseMemObject(mem)`: the buffer with that handle, if one is alive, is
released (each buffer of `Add` is created with one reference and never retained). -/
def clReleaseMemObject (mem : cl_mem) (dev : DeviceMemory) : DeviceMemory :=
  { dev with buffers := dev.buffers.eraseP (fun b => b.1 == mem) }

/-- One entry of `argsProcessor.getEntries()`. -/
structure Entry where
  name : String
  isUndirected : Bool
  iterations : Nat
deriving DecidableEq

/-- The members of `Add` that `setupExperiment` and `tearDownExperiment` touch, with the
memory of the OpenCL context. -/
structure Add where
  M : clsparseBoolCsrMatrix
  input : Matrix
  entries : List Entry
  device : DeviceMemory
deriving DecidableEq

/-- What the collaborators of `setupExperiment` answer: the matrix `MatrixLoader` loads for a
file name and direction flag, whether `clsparseInitBoolCsrMatrix` succeeds, and whether the
runtime grants the two buffer requests. -/
structure Collaborators where
  loadData : String → Bool → Matrix
  initOk : Bool
  rowPointerGranted : Bool
  colIndicesGranted : Bool

/-- The method `Add::setupExperiment`; the result carries the out-parameters
`iterationsCount` and `name`. The value `none` stands for a run that does not reach the end of
the function: a failed `assert` or an access outside a vector. -/
def setupExperiment (env : Collaborators) (experimentIdx : Nat) (self : Add) :
    Option (Add × Nat × String) :=
  match self.entries[experimentIdx]? with
  | none => none
  | some entry =>
    let input := env.loadData entry.name entry.isUndirected
    let n := input.nrows
    if input.nrows ≠ input.ncols then none
    else if ¬ env.initOk then none
    else
      match buildCsr input with
      | none => none
      | some (rowsPtr, colsInd) =>
        let M : clsparseBoolCsrMatrix :=
          { num_rows := n, num_cols := n, num_nonzeros := input.nvals,
            row_pointer := 0, col_indices := 0 }
        let (rowPointer, dev₁) := clCreateBuffer env.rowPointerGranted rowsPtr self.device
        if rowPointer = 0 then none
        else
          let (colIndices, dev₂) := clCreateBuffer env.colIndicesGranted colsInd dev₁
          if colIndices = 0 then none
          else
            some ({ self with
                    M := { M with row_pointer := rowPointer, col_indices := colIndices },
                    input := input, device := dev₂ },
                  entry.iterations, entry.name)

/-- The method `Add::tearDownExperiment`. -/
def tearDownExperiment (_experimentIdx : Nat) (self : Add) : Add :=
  let dev₁ := clReleaseMemObject self.M.col_indices self.device
  let dev₂ := clReleaseMemObject self.M.row_pointer dev₁
  { self with input := { nrows := 0, ncols := 0, nvals := 0, rows := [], cols := [] },
              device := dev₂ }

/-- The test `info.find(k) != npos` of `setupBenchmark`: `k` occurs in `info` as a contiguous
run of characters. -/
def find (info k : String) : Bool :=
  info.data.tails.any (fun t => k.data.isPrefixOf t)

/-- The array `keyWords` of `setupBenchmark`. -/
def keyWords : List String := ["cuda", "CUDA", "Cuda", "NVIDIA", "nvidia", "Nvidia"]

/-- The inner loop `for (auto& k: keyWords)` of `setupBenchmark`: `true` when the loop reaches
its `break`, that is when some keyword is found in the platform name. -/
def matchKeyWords (info : String) : List String → Bool
  | [] => false
  | k :: ks => if find info k then true else matchKeyWords info ks

/-- The locals `selectedPlatformId`, `platformId` and `foundCuda` of `setupBenchmark`. -/
structure Selection where
  selectedPlatformId : Int
  platformId : Int
  foundCuda : Bool
deriving DecidableEq

/-- The platform loop `for (const auto& p : platforms)` of `setupBenchmark`, over the platform
names; it stops at the first platform whose name holds a keyword. -/
def selectLoop : List String → Selection → Selection
  | [], s => s
  | info :: rest, s =>
    let platformId := s.platformId + 1
    let s' : Selection :=
      if matchKeyWords info keyWords then
        { selectedPlatformId := platformId, platformId := platformId, foundCuda := true }
      else
        { s with platformId := platformId }
    if s'.foundCuda then s' else selectLoop rest s'

/-- What the OpenCL runtime and clSPARSE answer to the calls of `setupBenchmark`. -/
structure Backend where
  /-- status returned by `cl::Platform::get`; `0` is `CL_SUCCESS` -/
  platformsStatus : Int
  /-- the `CL_PLATFORM_NAME` of each enumerated platform, in enumeration order -/
  platforms : List String
  /-- status and `CL_DEVICE_NAME`s returned by `getDevices(CL_DEVICE_TYPE_GPU, _)` -/
  getDevices : String → Int × List String
  /-- whether `clsparseSetup() == clsparseSuccess` -/
  clsparseSetupOk : Bool
  /-- whether `clsparseCreateControl(..).status == clsparseSuccess` -/
  createControlOk : Bool

/-- How a call of `setupBenchmark` ends. -/
inductive SetupResult
  /-- the call `cl::Platform::get` failed: logged, `return` (lines 54-57) -/
  | platformsFailed (clStatus : Int)
  /-- the access `platforms[selectedPlatformId]` (line 83) is outside the vector: undefined
  behaviour -/
  | platformIndexOutOfRange (selectedPlatformId : Int)
  /-- the call `getDevices` failed: logged, `return` (lines 89-95) -/
  | devicesFailed (clStatus : Int)
  /-- the access `devices[selectedDeviceId]` (line 103) is outside the vector: undefined
  behaviour -/
  | deviceIndexOutOfRange
  /-- the call `clsparseSetup` failed: logged, `return` (lines 108-111) -/
  | clsparseSetupFailed
  /-- the check `CLSPARSE_V` saw a failed `clsparseCreateControl` (line 114) -/
  | createControlFailed
  /-- the control was created on the named platform and device (line 116) -/
  | controlCreated (platform device : String)
deriving DecidableEq

/-- The access `v[i]` of a `std::vector` with an `int` index: inside the vector exactly when
`0 ≤ i < v.size()` (a negative `int` converts to a `size_type` beyond every vector size). -/
def vectorAt {α : Type} (v : List α) (i : Int) : Option α :=
  if 0 ≤ i then v[i.toNat]? else none

/-- The method `Add::setupBenchmark`. -/
def setupBenchmark (cl : Backend) : SetupResult :=
  if cl.platformsStatus ≠ 0 then .platformsFailed cl.platformsStatus
  else
    let sel := selectLoop cl.platforms
      { selectedPlatformId := -1, platformId := -1, foundCuda := false }
    match vectorAt cl.platforms sel.selectedPlatformId with
    | none => .platformIndexOutOfRange sel.selectedPlatformId
    | some clPlatform =>
      let (clStatus, devices) := cl.getDevices clPlatform
      if clStatus ≠ 0 then .devicesFailed clStatus
      else
        match vectorAt devices 0 with
        | none => .deviceIndexOutOfRange
        | some clDevice =>
          if ¬ cl.clsparseSetupOk then .clsparseSetupFailed
          else if ¬ cl.createControlOk then .createControlFailed
          else .controlCreated clPlatform clDevice

/-- The lifecycle calls a benchmark run makes on `Add`. -/
inductive Event
  | setupBenchmark
  | tearDownBenchmark
  | setupExperiment (experimentIdx : Nat)
  | tearDownExperiment (experimentIdx : Nat)
  | setupIteration (experimentIdx iterationIdx : Nat)
  | execIteration (experimentIdx iterationIdx : Nat)
  | tearDownIteration (experimentIdx iterationIdx : Nat)
deriving DecidableEq

/-- Modelled from the spec: the ITERATION scope of `BenchmarkBase::runBenchmark`
(`benchmark_base.hpp`): `setupIteration → execIteration → tearDownIteration`. -/
def iterationScope (experimentIdx iterationIdx : Nat) : List Event :=
  [.setupIteration experimentIdx iterationIdx, .execIteration experimentIdx iterationIdx,
   .tearDownIteration experimentIdx iterationIdx]

/-- Modelled from the spec: the EXPERIMENT scope of `BenchmarkBase::runBenchmark`
(`benchmark_base.hpp`): `setupExperiment(idx) → [for each iteration: ITERATION] →
tearDownExperiment(idx)`, with the iteration count that `setupExperiment` reports. -/
def experimentScope (iterationsCount : Nat → Nat) (experimentIdx : Nat) : List Event :=
  .setupExperiment experimentIdx ::
    ((List.range (iterationsCount experimentIdx)).flatMap (iterationScope experimentIdx)
      ++ [.tearDownExperiment experimentIdx])

/-- Modelled from the spec: the sequence of lifecycle calls of `BenchmarkBase::runBenchmark`
(`benchmark_base.hpp`): `setupBenchmark() → [for each experiment: EXPERIMENT] →
tearDownBenchmark()`. -/
def runBenchmark (experimentsCount : Nat) (iterationsCount : Nat → Nat) : List Event :=
  .setupBenchmark ::
    ((List.range experimentsCount).flatMap (experimentScope iterationsCount)
      ++ [.tearDownBenchmark])

/-- The edge list `[(0,1),(0,2),(1,0),(2,1)]` over `3` vertices. -/
def fourEdges : Matrix :=
  { nrows := 3, ncols := 3, nvals := 4, rows := [0, 0, 1, 2], cols := [1, 2, 0, 1] }

/-- The edge list `[(0,2),(1,1),(1,0),(3,3),(3,0)]` over `4` vertices: row-sorted, with an
empty row and with unsorted columns inside a row. -/
def fiveEdges : Matrix :=
  { nrows := 4, ncols := 4, nvals := 5, rows := [0, 1, 1, 3, 3], cols := [2, 1, 0, 3, 0] }

/-- The edges of `fiveEdges` in another order: `[(3,0),(1,1),(0,2),(3,3),(1,0)]`. -/
def fiveEdgesShuffled : Matrix :=
  { nrows := 4, ncols := 4, nvals := 5, rows := [3, 1, 0, 3, 1], cols := [0, 1, 2, 3, 0] }

/-- A backend that enumerates one platform, whose name holds none of the keywords, with one
GPU device; every other call succeeds. -/
def intelOnly : Backend :=
  { platformsStatus := 0, platforms := ["Intel(R) OpenCL"],
    getDevices := fun _ => (0, ["Intel(R) UHD Graphics"]),
    clsparseSetupOk := true, createControlOk := true }

/-- The unsorted edge list `[(2,1),(0,2),(2,0)]` over `3` vertices, with the last row index
`n - 1` occurring twice. -/
def threeEdges : Matrix :=
  { nrows := 3, ncols := 3, nvals := 3, rows := [2, 0, 2], cols := [1, 2, 0] }

/-- An `Add` object with one entry, before its experiment is set up, and one buffer of another
owner alive on the device. -/
def oneEntry : Add :=
  { M := { num_rows := 0, num_cols := 0, num_nonzeros := 0, row_pointer := 0, col_indices := 0 },
    input := { nrows := 0, ncols := 0, nvals := 0, rows := [], cols := [] },
    entries := [{ name := "graph.mtx", isUndirected := false, iterations := 3 }],
    device := { buffers := [(7, [5, 5])], lastHandle := 7 } }

/-- Collaborators that load `fourEdges` for every file and let every call succeed. -/
def loadsFourEdges : Collaborators :=
  { loadData := fun _ _ => fourEdges, initOk := true,
    rowPointerGranted := true, colIndicesGranted := true }

/-- A backend whose platform enumeration succeeds with an empty list. -/
def noPlatforms : Backend :=
  { platformsStatus := 0, platforms := [],
    getDevices := fun _ => (0, []),
    clsparseSetupOk := true, createControlOk := true }

/-! ## Theorems -/

/-! ## The counting loop and the prefix sum -/

theorem countLoop_spec (input : Matrix) :
    ∀ (k i : Nat) (rowsPtr colsInd : List Nat),
      i + k = input.rows.length → input.cols.length = input.rows.length →
      colsInd.length = input.rows.length →
      (∀ r ∈ input.rows.drop i, r < rowsPtr.length) →
      ∃ rp ci, countLoop input k i rowsPtr colsInd = some (rp, ci) ∧
        (∀ j, rp[j]? = rowsPtr[j]?.map (· + (input.rows.drop i).count j)) ∧
        (∀ j, ci[j]? = if j < i then colsInd[j]? else input.cols[j]?) := by
  intro k
  induction k with
  | zero =>
    intro i rowsPtr colsInd hk hc hl _
    refine ⟨rowsPtr, colsInd, rfl, ?_, ?_⟩
    · intro j
      have : input.rows.drop i = [] := List.drop_eq_nil_of_le (by omega)
      rw [this]
      cases rowsPtr[j]? <;> simp
    · intro j
      split
      · rfl
      · rw [List.getElem?_eq_none (by omega), List.getElem?_eq_none (by omega)]
  | succ k ih =>
    intro i rowsPtr colsInd hk hc hl hr
    have hi : i < input.rows.length := by omega
    have hdrop := List.drop_eq_getElem_cons hi
    have hrlt : input.rows[i] < rowsPtr.length := hr _ (by rw [hdrop]; exact List.mem_cons_self _ _)
    have hic : i < input.cols.length := by omega
    obtain ⟨rp, ci, hrun, hrp, hci⟩ :=
      ih (i + 1) (rowsPtr.set input.rows[i] (rowsPtr[input.rows[i]] + 1))
        (colsInd.set i input.cols[i]) (by omega) hc (by simpa using hl)
        (by
          intro r hmem
          rw [List.length_set]
          exact hr r (by rw [hdrop]; exact List.mem_cons_of_mem _ hmem))
    refine ⟨rp, ci, ?_, ?_, ?_⟩
    · rw [countLoop]
      simp only [List.getElem?_eq_getElem hi, List.getElem?_eq_getElem hrlt,
        List.getElem?_eq_getElem hic]
      rw [if_pos (by omega)]
      exact hrun
    · intro j
      rw [hrp j, hdrop, List.getElem?_set, List.count_cons]
      by_cases hj : input.rows[i] = j
      · subst hj
        simp [hrlt]
        omega
      · simp [hj]
    · intro j
      rw [hci j, List.getElem?_set]
      by_cases hj : i = j
      · subst hj
        simp [hl, hi, hic]
      · have : (j < i + 1) = (j < i) := by
          apply propext; constructor <;> intro h <;> omega
        simp [hj, this]

theorem rowOffset_succ (rows : List Nat) (i : Nat) :
    rowOffset rows (i + 1) = rowOffset rows i + rows.count i := by
  unfold rowOffset
  induction rows with
  | nil => simp
  | cons a l ih =>
    rw [List.countP_cons, List.countP_cons, List.count_cons, ih]
    by_cases h1 : a < i
    · have h2 : a < i + 1 := by omega
      have h3 : a ≠ i := by omega
      simp [h1, h2, h3]
      omega
    · by_cases h2 : a = i
      · subst h2
        simp
        omega
      · have h3 : ¬ a < i + 1 := by omega
        simp [h1, h2, h3]

theorem prefixSum_counts (rows : List Nat) :
    ∀ (m a : Nat), prefixSum (rowOffset rows a) ((List.range' a m).map (fun r => rows.count r))
      = (List.range' a m).map (rowOffset rows) := by
  intro m
  induction m with
  | zero => intro a; simp [prefixSum]
  | succ m ih =>
    intro a
    rw [List.range'_succ, List.map_cons, List.map_cons, prefixSum, ← rowOffset_succ, ih]

theorem buildCsr_eq (input : Matrix)
    (hrows : input.rows.length = input.nvals) (hcols : input.cols.length = input.nvals)
    (hrange : ∀ r ∈ input.rows, r < input.nrows) :
    buildCsr input
      = some ((List.range (input.nrows + 1)).map (rowOffset input.rows), input.cols) := by
  generalize hn : input.nrows = n at hrange
  obtain ⟨rp, ci, hrun, hrp, hci⟩ :=
    countLoop_spec input input.nvals 0 (List.replicate (n + 1) 0) (List.replicate input.nvals 0)
      (by omega) (by omega) (by simp [hrows])
      (by
        intro r hr
        have := hrange r (by simpa using hr)
        simp
        omega)
  have hrp' : rp = (List.range' 0 (n + 1)).map (fun r => input.rows.count r) := by
    apply List.ext_getElem?
    intro j
    rw [hrp j, List.getElem?_map, List.getElem?_replicate, ← List.range_eq_range']
    by_cases hj : j < n + 1
    · simp [hj, List.getElem?_range hj]
    · rw [List.getElem?_eq_none (by simpa using hj)]
      simp [hj]
  have hci' : ci = input.cols := by
    apply List.ext_getElem?
    intro j
    simpa using hci j
  have h0 : rowOffset input.rows 0 = 0 := by simp [rowOffset]
  unfold buildCsr
  simp only [hn]
  rw [hrun, hrp', hci']
  simp only
  have := prefixSum_counts input.rows (n + 1) 0
  rw [h0] at this
  rw [this, List.range_eq_range']

theorem countLoop_cols (input : Matrix) :
    ∀ (k i : Nat) (rowsPtr colsInd rp ci : List Nat),
      countLoop input k i rowsPtr colsInd = some (rp, ci) →
      ci.length = colsInd.length ∧
      ∀ j, ci[j]? = if i ≤ j ∧ j < i + k then input.cols[j]? else colsInd[j]? := by
  intro k
  induction k with
  | zero =>
    intro i rowsPtr colsInd rp ci h
    simp only [countLoop, Option.some.injEq, Prod.mk.injEq] at h
    obtain ⟨-, rfl⟩ := h
    refine ⟨rfl, fun j => ?_⟩
    rw [if_neg (by omega)]
  | succ k ih =>
    intro i rowsPtr colsInd rp ci h
    rw [countLoop] at h
    split at h
    · exact absurd h (by simp)
    · split at h
      · exact absurd h (by simp)
      · split at h
        · exact absurd h (by simp)
        · rename_i c hc
          split at h
          · rename_i hi
            obtain ⟨hlen, hget⟩ := ih _ _ _ _ _ h
            refine ⟨by simpa using hlen, fun j => ?_⟩
            rw [hget j, List.getElem?_set]
            by_cases hj : i = j
            · subst hj
              simp [hi, hc]
            · by_cases hj2 : i + 1 ≤ j ∧ j < i + 1 + k
              · rw [if_pos hj2, if_pos (by omega)]
              · rw [if_neg hj2, if_neg hj, if_neg (by omega)]
          · exact absurd h (by simp)

theorem rowOffset_mono (rows : List Nat) {i j : Nat} (h : i ≤ j) :
    rowOffset rows i ≤ rowOffset rows j := by
  unfold rowOffset
  apply List.countP_mono_left
  intro x _ hx
  simp only [decide_eq_true_eq] at hx ⊢
  omega

theorem rowOffset_zero (rows : List Nat) : rowOffset rows 0 = 0 := by
  simp [rowOffset]

theorem rowOffset_eq_length (rows : List Nat) (n : Nat) (h : ∀ r ∈ rows, r < n) :
    rowOffset rows n = rows.length := by
  unfold rowOffset
  rw [List.countP_eq_length]
  intro a ha
  simpa using h a ha

theorem rowOffset_lookup (rows : List Nat) (n i : Nat) (h : i ≤ n) :
    ((List.range (n + 1)).map (rowOffset rows))[i]? = some (rowOffset rows i) := by
  rw [List.getElem?_map, List.getElem?_range (by omega)]
  rfl

theorem rowOffset_eq_zero (rows : List Nat) (i : Nat) (h : ∀ r ∈ rows, i ≤ r) :
    rowOffset rows i = 0 := by
  unfold rowOffset
  rw [List.countP_eq_zero]
  intro a ha
  have := h a ha
  simp only [decide_eq_true_eq]
  omega

theorem sorted_slice (i : Nat) :
    ∀ (rows cols : List Nat), rows.length = cols.length → rows.Pairwise (· ≤ ·) →
      (cols.drop (rowOffset rows i)).take (rows.count i) = rowCols rows cols i := by
  intro rows
  induction rows with
  | nil => intro cols _ _; simp [rowCols]
  | cons r rs ih =>
    intro cols hlen hs
    cases cols with
    | nil => simp at hlen
    | cons c cs =>
      have hlen' : rs.length = cs.length := by simpa using hlen
      obtain ⟨hr, hs'⟩ := List.pairwise_cons.mp hs
      have ih' := ih cs hlen' hs'
      have hcols : rowCols (r :: rs) (c :: cs) i
          = if r = i then c :: rowCols rs cs i else rowCols rs cs i := by
        unfold rowCols
        rw [List.zip_cons_cons, List.filter_cons]
        by_cases h : r = i <;> simp [h]
      rw [hcols]
      rcases Nat.lt_trichotomy r i with hlt | heq | hgt
      · have h1 : rowOffset (r :: rs) i = rowOffset rs i + 1 := by
          simp [rowOffset, List.countP_cons, hlt]
        have h2 : (r :: rs).count i = rs.count i := by
          rw [List.count_cons]; simp; omega
        rw [h1, h2, if_neg (by omega), List.drop_succ_cons, ih']
      · subst heq
        have h0 : rowOffset rs r = 0 := rowOffset_eq_zero _ _ hr
        have h1 : rowOffset (r :: rs) r = 0 := by
          simp only [rowOffset, List.countP_cons] at h0 ⊢
          simp [h0]
        have h2 : (r :: rs).count r = rs.count r + 1 := by simp
        rw [h1, h2, if_pos rfl, List.drop_zero, List.take_succ_cons, ← ih', h0, List.drop_zero]
      · have hall : ∀ x ∈ rs, i ≤ x := fun x hx => by have := hr x hx; omega
        have h0 : rowOffset rs i = 0 := rowOffset_eq_zero _ _ hall
        have h1 : rowOffset (r :: rs) i = 0 := by
          simp only [rowOffset, List.countP_cons] at h0 ⊢
          simp [h0]; omega
        have h2 : (r :: rs).count i = rs.count i := by
          rw [List.count_cons]; simp; omega
        have h3 : rs.count i = 0 := by
          rw [List.count_eq_zero]
          intro hmem
          have := hr i hmem
          omega
        rw [h1, h2, if_neg (by omega), ← ih', h3]
        simp

/-- A row index outside the row-pointer vector stops the build: edges `[(1,0),(3,1)]`,
`n = 2`. -/
theorem buildCsr_row_outside :
    buildCsr { nrows := 2, ncols := 2, nvals := 2, rows := [1, 3], cols := [0, 1] } = none := by
  decide

/-! ## The built CSR arrays -/

/-- C1: for `n ≥ 1` and row indices in `[0, n)`, the built `row_pointer` has length `n + 1`,
is non-decreasing, starts at `0` and ends at `nvals`. -/
theorem row_pointer_shape (input : Matrix) (_hn : 1 ≤ input.nrows)
    (hrows : input.rows.length = input.nvals) (hcols : input.cols.length = input.nvals)
    (hrange : ∀ r ∈ input.rows, r < input.nrows) :
    ∃ rowsPtr colsInd, buildCsr input = some (rowsPtr, colsInd) ∧
      rowsPtr.length = input.nrows + 1 ∧
      rowsPtr.Pairwise (· ≤ ·) ∧
      rowsPtr[0]? = some 0 ∧
      rowsPtr[input.nrows]? = some input.nvals := by
  refine ⟨_, _, buildCsr_eq input hrows hcols hrange, by simp, ?_, ?_, ?_⟩
  · rw [List.pairwise_map]
    exact (List.pairwise_lt_range _).imp (fun hab => rowOffset_mono _ (Nat.le_of_lt hab))
  · rw [rowOffset_lookup _ _ _ (Nat.zero_le _), rowOffset_zero]
  · rw [rowOffset_lookup _ _ _ (Nat.le_refl _), rowOffset_eq_length _ _ hrange, hrows]

/-- Witness of C1 on the edge list `[(0,1),(0,2),(1,0),(2,1)]`, `n = 3`. -/
theorem row_pointer_shape_witness :
    buildCsr fourEdges = some ([0, 2, 3, 4], [1, 2, 0, 1]) ∧
    ∃ rowsPtr colsInd, buildCsr fourEdges = some (rowsPtr, colsInd) ∧
      rowsPtr.length = fourEdges.nrows + 1 ∧
      rowsPtr.Pairwise (· ≤ ·) ∧
      rowsPtr[0]? = some 0 ∧
      rowsPtr[fourEdges.nrows]? = some fourEdges.nvals :=
  ⟨by decide, row_pointer_shape fourEdges (by decide) rfl rfl (by decide)⟩

/-- C2: for every row `i < n`, `row_pointer[i+1] - row_pointer[i]` is the number of input
edges whose row index is `i`. -/
theorem row_pointer_diff (input : Matrix)
    (hrows : input.rows.length = input.nvals) (hcols : input.cols.length = input.nvals)
    (hrange : ∀ r ∈ input.rows, r < input.nrows) (i : Nat) (hi : i < input.nrows) :
    ∃ rowsPtr colsInd, buildCsr input = some (rowsPtr, colsInd) ∧
      ∃ a b, rowsPtr[i]? = some a ∧ rowsPtr[i + 1]? = some b ∧ a ≤ b ∧
        b - a = input.rows.count i := by
  refine ⟨_, _, buildCsr_eq input hrows hcols hrange, rowOffset input.rows i,
    rowOffset input.rows (i + 1), rowOffset_lookup _ _ _ (by omega),
    rowOffset_lookup _ _ _ (by omega), rowOffset_mono _ (by omega), ?_⟩
  rw [rowOffset_succ]
  omega

/-- Witness of C2 on row `1` of `fiveEdges`, which has two edges. -/
theorem row_pointer_diff_witness :
    fiveEdges.rows.count 1 = 2 ∧
    ∃ rowsPtr colsInd, buildCsr fiveEdges = some (rowsPtr, colsInd) ∧
      ∃ a b, rowsPtr[1]? = some a ∧ rowsPtr[1 + 1]? = some b ∧ a ≤ b ∧
        b - a = fiveEdges.rows.count 1 :=
  ⟨by decide, row_pointer_diff fiveEdges rfl rfl (by decide) 1 (by decide)⟩

/-- C3: `col_indices` has length `nvals` and its `k`-th entry is the column of the `k`-th
input edge, whenever the build completes; it completes when the row indices lie in `[0, n)`. -/
theorem col_indices_copy (input : Matrix)
    (hrows : input.rows.length = input.nvals) (hcols : input.cols.length = input.nvals) :
    (∀ rowsPtr colsInd, buildCsr input = some (rowsPtr, colsInd) →
      colsInd.length = input.nvals ∧ ∀ k, k < input.nvals → colsInd[k]? = input.cols[k]?) ∧
    ((∀ r ∈ input.rows, r < input.nrows) → (buildCsr input).isSome = true) := by
  constructor
  · intro rowsPtr colsInd h
    unfold buildCsr at h
    simp only at h
    split at h
    · exact absurd h (by simp)
    · rename_i rp ci hrun
      simp only [Option.some.injEq, Prod.mk.injEq] at h
      obtain ⟨-, rfl⟩ := h
      obtain ⟨hlen, hget⟩ := countLoop_cols input _ _ _ _ _ _ hrun
      refine ⟨by simpa using hlen, fun k hk => ?_⟩
      rw [hget k, if_pos (by omega)]
  · intro hrange
    rw [buildCsr_eq input hrows hcols hrange]
    rfl

/-- Witness of C3 on the unsorted edge list `[(1,0),(0,1)]`, `n = 2`. -/
theorem col_indices_copy_witness :
    buildCsr { nrows := 2, ncols := 2, nvals := 2, rows := [1, 0], cols := [0, 1] }
      = some ([0, 1, 2], [0, 1]) ∧
    (∀ rowsPtr colsInd,
      buildCsr { nrows := 2, ncols := 2, nvals := 2, rows := [1, 0], cols := [0, 1] }
        = some (rowsPtr, colsInd) →
      colsInd.length = 2 ∧ ∀ k, k < 2 → colsInd[k]? = [0, 1][k]?) ∧
    ((∀ r ∈ [1, 0], r < 2) →
      (buildCsr { nrows := 2, ncols := 2, nvals := 2, rows := [1, 0], cols := [0, 1] }).isSome
        = true) :=
  ⟨by decide,
    col_indices_copy { nrows := 2, ncols := 2, nvals := 2, rows := [1, 0], cols := [0, 1] }
      rfl rfl⟩

/-- C4: for row-sorted input with row indices in `[0, n)`, the slice
`col_indices[row_pointer[i] .. row_pointer[i+1])` is the sequence of columns of the edges of
row `i`, in input order. -/
theorem sorted_input_grouping (input : Matrix)
    (hrows : input.rows.length = input.nvals) (hcols : input.cols.length = input.nvals)
    (hrange : ∀ r ∈ input.rows, r < input.nrows)
    (hsorted : input.rows.Pairwise (· ≤ ·)) (i : Nat) (hi : i < input.nrows) :
    ∃ rowsPtr colsInd, buildCsr input = some (rowsPtr, colsInd) ∧
      ∃ a b, rowsPtr[i]? = some a ∧ rowsPtr[i + 1]? = some b ∧
        (colsInd.drop a).take (b - a) = rowCols input.rows input.cols i := by
  refine ⟨_, _, buildCsr_eq input hrows hcols hrange, rowOffset input.rows i,
    rowOffset input.rows (i + 1), rowOffset_lookup _ _ _ (by omega),
    rowOffset_lookup _ _ _ (by omega), ?_⟩
  rw [rowOffset_succ, Nat.add_sub_cancel_left]
  exact sorted_slice i _ _ (by omega) hsorted

/-- Witness of C4 on row `3` of `fiveEdges`, whose columns are `[3, 0]` in input order. -/
theorem sorted_input_grouping_witness :
    rowCols fiveEdges.rows fiveEdges.cols 3 = [3, 0] ∧
    ∃ rowsPtr colsInd, buildCsr fiveEdges = some (rowsPtr, colsInd) ∧
      ∃ a b, rowsPtr[3]? = some a ∧ rowsPtr[3 + 1]? = some b ∧
        (colsInd.drop a).take (b - a) = rowCols fiveEdges.rows fiveEdges.cols 3 :=
  ⟨by decide, sorted_input_grouping fiveEdges rfl rfl (by decide) (by decide) 3 (by decide)⟩

/-- C8: the edge list `[(1,0),(0,1)]` with `n = 2` has all indices in `[0, n)`, is not
row-sorted, and the slice of row `0` in the built CSR is not the columns of row `0`. -/
theorem unsorted_input_not_grouped :
    ∃ input : Matrix,
      input.rows.length = input.nvals ∧ input.cols.length = input.nvals ∧
      (∀ r ∈ input.rows, r < input.nrows) ∧ (∀ c ∈ input.cols, c < input.nrows) ∧
      ¬ input.rows.Pairwise (· ≤ ·) ∧
      ∃ rowsPtr colsInd, buildCsr input = some (rowsPtr, colsInd) ∧
        ∃ i, i < input.nrows ∧ ∃ a b, rowsPtr[i]? = some a ∧ rowsPtr[i + 1]? = some b ∧
          (colsInd.drop a).take (b - a) ≠ rowCols input.rows input.cols i := by
  refine ⟨⟨2, 2, 2, [1, 0], [0, 1]⟩, rfl, rfl, by decide, by decide, by decide,
    [0, 1, 2], [0, 1], by decide, 0, by decide, 0, 1, rfl, rfl, by decide⟩

/-- C9: when `rows` and `cols` both have length `nvals` and every row index lies in `[0, n)`,
no access of the build leaves its vector: the build yields a result. -/
theorem build_index_safe (input : Matrix)
    (hrows : input.rows.length = input.nvals) (hcols : input.cols.length = input.nvals)
    (hrange : ∀ r ∈ input.rows, r < input.nrows) :
    ∃ rowsPtr colsInd, buildCsr input = some (rowsPtr, colsInd) :=
  ⟨_, _, buildCsr_eq input hrows hcols hrange⟩

/-- Witness of C9 on `threeEdges`: the loop runs three times, reads `rows[0..2]` and
`cols[0..2]`, updates `rowsPtr[2]`, `rowsPtr[0]`, `rowsPtr[2]` and writes `colsInd[0..2]`, all
inside their vectors, and the build yields `row_pointer = [0,1,1,3]`, `col_indices = [1,2,0]`. -/
theorem build_index_safe_witness :
    threeEdges.rows.length = 3 ∧ threeEdges.nvals = 3 ∧
    countLoop threeEdges 3 0 [0, 0, 0, 0] [0, 0, 0] = some ([1, 0, 2, 0], [1, 2, 0]) ∧
    buildCsr threeEdges = some ([0, 1, 1, 3], [1, 2, 0]) ∧
    ∃ rowsPtr colsInd, buildCsr threeEdges = some (rowsPtr, colsInd) :=
  ⟨by decide, by decide, by decide, by decide,
    build_index_safe threeEdges (by decide) (by decide) (by decide)⟩

/-- C10: two edge lists that are permutations of one another give the same `row_pointer`,
while each `col_indices` follows its own input order. -/
theorem row_pointer_perm_invariant (input₁ input₂ : Matrix)
    (hn : input₁.nrows = input₂.nrows)
    (hrows₁ : input₁.rows.length = input₁.nvals) (hcols₁ : input₁.cols.length = input₁.nvals)
    (hrows₂ : input₂.rows.length = input₂.nvals) (hcols₂ : input₂.cols.length = input₂.nvals)
    (hrange₁ : ∀ r ∈ input₁.rows, r < input₁.nrows)
    (hperm : (input₁.rows.zip input₁.cols).Perm (input₂.rows.zip input₂.cols)) :
    ∃ rowsPtr, buildCsr input₁ = some (rowsPtr, input₁.cols) ∧
      buildCsr input₂ = some (rowsPtr, input₂.cols) := by
  have hp : input₁.rows.Perm input₂.rows := by
    have := hperm.map Prod.fst
    rwa [List.map_fst_zip _ _ (by omega), List.map_fst_zip _ _ (by omega)] at this
  have hrange₂ : ∀ r ∈ input₂.rows, r < input₂.nrows := by
    intro r hr
    rw [← hn]
    exact hrange₁ r (hp.mem_iff.mpr hr)
  refine ⟨_, buildCsr_eq input₁ hrows₁ hcols₁ hrange₁, ?_⟩
  rw [buildCsr_eq input₂ hrows₂ hcols₂ hrange₂, hn]
  have : rowOffset input₁.rows = rowOffset input₂.rows := by
    funext i
    exact hp.countP_eq _
  rw [this]

/-- Witness of C10 on `fiveEdges` and a reordering of its edges. -/
theorem row_pointer_perm_invariant_witness :
    fiveEdges.cols ≠ fiveEdgesShuffled.cols ∧
    ∃ rowsPtr, buildCsr fiveEdges = some (rowsPtr, fiveEdges.cols) ∧
      buildCsr fiveEdgesShuffled = some (rowsPtr, fiveEdgesShuffled.cols) :=
  ⟨by decide,
    row_pointer_perm_invariant fiveEdges fiveEdgesShuffled rfl rfl rfl rfl rfl (by decide)
      (by decide)⟩

/-! ## Platform selection -/

theorem selectLoop_no_match :
    ∀ (platforms : List String) (s : Selection), s.foundCuda = false →
      (∀ info ∈ platforms, matchKeyWords info keyWords = false) →
      selectLoop platforms s = { s with platformId := s.platformId + platforms.length } := by
  intro platforms
  induction platforms with
  | nil => intro s _ _; simp [selectLoop]
  | cons info rest ih =>
    intro s hs h
    have h1 : matchKeyWords info keyWords = false := h info (List.mem_cons_self _ _)
    have h2 : ∀ i ∈ rest, matchKeyWords i keyWords = false :=
      fun i hi => h i (List.mem_cons_of_mem _ hi)
    rw [selectLoop]
    simp only [h1, hs, Bool.false_eq_true, if_false]
    rw [ih _ rfl h2]
    simp only [List.length_cons, Nat.cast_add, Nat.cast_one]
    congr 1
    omega

theorem setupBenchmark_no_match (cl : Backend) (hstatus : cl.platformsStatus = 0)
    (hnone : ∀ info ∈ cl.platforms, matchKeyWords info keyWords = false) :
    setupBenchmark cl = SetupResult.platformIndexOutOfRange (-1) := by
  unfold setupBenchmark
  rw [if_neg (by simp [hstatus]), selectLoop_no_match _ _ rfl hnone]
  simp [vectorAt]

/-- C5: with one enumerated platform whose name holds no keyword, and with an empty platform
list, `setupBenchmark` makes no selection but does not return early: it goes on to line 83 and
reads `platforms[selectedPlatformId]` with `selectedPlatformId = -1`, outside the vector. -/
theorem setupBenchmark_unmatched_indexes_platforms :
    (∀ info ∈ intelOnly.platforms, matchKeyWords info keyWords = false) ∧
    selectLoop intelOnly.platforms
      { selectedPlatformId := -1, platformId := -1, foundCuda := false }
      = { selectedPlatformId := -1, platformId := 0, foundCuda := false } ∧
    setupBenchmark intelOnly = SetupResult.platformIndexOutOfRange (-1) ∧
    setupBenchmark noPlatforms = SetupResult.platformIndexOutOfRange (-1) := by
  refine ⟨by decide, by decide, by decide, by decide⟩

/-- With a second platform named `NVIDIA CUDA` the selection is platform `1` and the control is
created on it. -/
theorem setupBenchmark_selects_first_match :
    setupBenchmark { intelOnly with platforms := ["Intel(R) OpenCL", "NVIDIA CUDA", "CUDA 2"] }
      = SetupResult.controlCreated "NVIDIA CUDA" "Intel(R) UHD Graphics" := by
  decide

/-! ## Device buffers of an experiment -/

/-- C6: a completed `setupExperiment` adds exactly two live buffers, the ones named by
`M.row_pointer` and `M.col_indices`; the matching `tearDownExperiment` releases these two, so
the live buffers after the pair are those before it. The setup completes when the entry
exists, the loaded matrix is square and well formed and the collaborators succeed. -/
theorem input_buffers_balanced (env : Collaborators) (experimentIdx : Nat) (self : Add) :
    (∀ self' iterationsCount name,
      setupExperiment env experimentIdx self = some (self', iterationsCount, name) →
      (∃ rowsPtr colsInd,
        self'.device.buffers = (self'.M.col_indices, colsInd) ::
          (self'.M.row_pointer, rowsPtr) :: self.device.buffers) ∧
      self'.M.row_pointer ≠ self'.M.col_indices ∧
      self'.device.buffers.length = self.device.buffers.length + 2 ∧
      (clReleaseMemObject self'.M.col_indices self'.device).buffers.length
        = self.device.buffers.length + 1 ∧
      (tearDownExperiment experimentIdx self').device.buffers = self.device.buffers ∧
      (tearDownExperiment experimentIdx self').device.buffers.length
        = self.device.buffers.length) ∧
    (∀ entry, self.entries[experimentIdx]? = some entry →
      (env.loadData entry.name entry.isUndirected).nrows
        = (env.loadData entry.name entry.isUndirected).ncols →
      (env.loadData entry.name entry.isUndirected).rows.length
        = (env.loadData entry.name entry.isUndirected).nvals →
      (env.loadData entry.name entry.isUndirected).cols.length
        = (env.loadData entry.name entry.isUndirected).nvals →
      (∀ r ∈ (env.loadData entry.name entry.isUndirected).rows,
        r < (env.loadData entry.name entry.isUndirected).nrows) →
      env.initOk = true → env.rowPointerGranted = true → env.colIndicesGranted = true →
      (setupExperiment env experimentIdx self).isSome = true) := by
  constructor
  · intro self' iterationsCount name h
    unfold setupExperiment at h
    split at h
    · exact absurd h (by simp)
    · rename_i entry hentry
      simp only at h
      split at h
      · exact absurd h (by simp)
      · split at h
        · exact absurd h (by simp)
        · split at h
          · exact absurd h (by simp)
          · rename_i rowsPtr colsInd hbuild
            unfold clCreateBuffer at h
            by_cases h1 : env.rowPointerGranted = true
            · by_cases h2 : env.colIndicesGranted = true
              · simp [h1, h2] at h
                obtain ⟨rfl, -, -⟩ := h
                refine ⟨⟨rowsPtr, colsInd, rfl⟩, by simp, by simp, ?_, ?_, ?_⟩ <;>
                  simp [tearDownExperiment, clReleaseMemObject]
              · simp [h1, h2] at h
            · simp [h1] at h
  · intro entry hentry hsq hrows hcols hrange hinit hrow hcol
    unfold setupExperiment
    rw [hentry]
    simp only
    rw [buildCsr_eq _ hrows hcols hrange]
    simp [hsq, hinit, hrow, hcol, clCreateBuffer]

/-- Witness of C6: the experiment of `oneEntry` is set up, with buffers `8` and `9` holding the
built arrays, and the buffers alive after its teardown are those alive before. -/
theorem input_buffers_balanced_witness :
    (setupExperiment loadsFourEdges 0 oneEntry).map (fun r => (r.1.device.buffers, r.2))
      = some ([(9, [1, 2, 0, 1]), (8, [0, 2, 3, 4]), (7, [5, 5])], 3, "graph.mtx") ∧
    (setupExperiment loadsFourEdges 0 oneEntry).map
        (fun r => (tearDownExperiment 0 r.1).device.buffers)
      = some oneEntry.device.buffers ∧
    (setupExperiment loadsFourEdges 0 oneEntry).isSome = true :=
  ⟨by decide, by decide,
    (input_buffers_balanced loadsFourEdges 0 oneEntry).2 _ rfl rfl rfl rfl (by decide)
      rfl rfl rfl⟩

/-! ## Lifecycle ordering -/

theorem pair_sublist_range {a b n : Nat} (hab : a < b) (hb : b < n) :
    [a, b].Sublist (List.range n) := by
  apply List.sublist_of_subperm_of_sorted (r := (· < ·))
  · apply List.subperm_of_subset
    · simp; omega
    · intro x hx
      simp at hx
      simp
      omega
  · simp [List.Sorted, hab]
  · exact List.sorted_lt_range n

theorem sublist_flatMap {α β : Type} (f : α → List β) {l₁ l₂ : List α}
    (h : l₁.Sublist l₂) : (l₁.flatMap f).Sublist (l₂.flatMap f) := by
  induction h with
  | slnil => simp
  | cons a _ ih =>
    rw [List.flatMap_cons]
    exact List.sublist_append_of_sublist_right ih
  | cons₂ a _ ih =>
    rw [List.flatMap_cons, List.flatMap_cons]
    exact List.Sublist.append (List.Sublist.refl _) ih

theorem flatMap_pair_sublist {α : Type} (f : Nat → List α) {a b n : Nat} (hab : a < b)
    (hb : b < n) : (f a ++ f b).Sublist ((List.range n).flatMap f) := by
  have := sublist_flatMap f (pair_sublist_range hab hb)
  simpa using this

theorem flatMap_single_sublist {α : Type} (f : Nat → List α) {a n : Nat} (ha : a < n) :
    (f a).Sublist ((List.range n).flatMap f) := by
  have h : [a].Sublist (List.range n) := by simp [ha]
  simpa using sublist_flatMap f h

theorem experimentScope_nodup (iterationsCount : Nat → Nat) (e : Nat) :
    (experimentScope iterationsCount e).Nodup := by
  unfold experimentScope
  rw [List.nodup_cons]
  constructor
  · simp [iterationScope]
  · rw [List.nodup_append]
    refine ⟨?_, by simp, ?_⟩
    · rw [List.nodup_flatMap]
      constructor
      · intro i _
        simp [iterationScope]
      · apply (List.nodup_range _).pairwise_of_forall_ne
        intro a _ b _ hab
        simp only [Function.onFun, iterationScope]
        intro x hx hx'
        simp only [List.mem_cons, List.mem_singleton, List.not_mem_nil, or_false] at hx hx'
        rcases hx with rfl | rfl | rfl <;> simp at hx' <;> exact hab hx'
    · intro x hx hx'
      simp only [List.mem_singleton] at hx'
      subst hx'
      simp [iterationScope] at hx

theorem mem_experimentScope {iterationsCount : Nat → Nat} {e : Nat} {x : Event}
    (h : x ∈ experimentScope iterationsCount e) :
    x = .setupExperiment e ∨ x = .tearDownExperiment e ∨
      ∃ i, x = .setupIteration e i ∨ x = .execIteration e i ∨ x = .tearDownIteration e i := by
  simp only [experimentScope, iterationScope, List.mem_cons, List.mem_append, List.mem_flatMap,
    List.mem_range, List.mem_singleton, List.not_mem_nil, or_false] at h
  rcases h with h | ⟨i, -, h⟩ | h
  · exact Or.inl h
  · exact Or.inr (Or.inr ⟨i, h⟩)
  · exact Or.inr (Or.inl h)

theorem runBenchmark_nodup (experimentsCount : Nat) (iterationsCount : Nat → Nat) :
    (runBenchmark experimentsCount iterationsCount).Nodup := by
  unfold runBenchmark
  rw [List.nodup_cons]
  constructor
  · intro h
    simp only [List.mem_append, List.mem_flatMap, List.mem_singleton] at h
    rcases h with ⟨e, -, h⟩ | h
    · rcases mem_experimentScope h with h | h | ⟨i, h | h | h⟩ <;> cases h
    · cases h
  · rw [List.nodup_append]
    refine ⟨?_, by simp, ?_⟩
    · rw [List.nodup_flatMap]
      refine ⟨fun e _ => experimentScope_nodup _ e, ?_⟩
      apply (List.nodup_range _).pairwise_of_forall_ne
      intro a _ b _ hab
      simp only [Function.onFun]
      intro x hx hx'
      rcases mem_experimentScope hx with h | h | ⟨i, h | h | h⟩ <;> subst h <;>
        rcases mem_experimentScope hx' with h | h | ⟨j, h | h | h⟩ <;>
        cases h <;> exact absurd rfl hab
    · intro x hx hx'
      simp only [List.mem_singleton] at hx'
      subst hx'
      simp only [List.mem_flatMap] at hx
      obtain ⟨e, -, h⟩ := hx
      rcases mem_experimentScope h with h | h | ⟨i, h | h | h⟩ <;> cases h

theorem experimentScope_sublist {experimentsCount : Nat} (iterationsCount : Nat → Nat) {e : Nat}
    (he : e < experimentsCount) :
    (experimentScope iterationsCount e).Sublist
      ((List.range experimentsCount).flatMap (experimentScope iterationsCount)) :=
  flatMap_single_sublist _ he

/-- C7: in the call sequence of a run every scope is opened before it is closed, every
iteration lies inside its experiment and every experiment inside the benchmark scope, and of
two sibling scopes the earlier is torn down before the later is set up. -/
theorem lifecycle_well_nested (experimentsCount : Nat) (iterationsCount : Nat → Nat) :
    (runBenchmark experimentsCount iterationsCount).Nodup ∧
    [Event.setupBenchmark, Event.tearDownBenchmark].Sublist
      (runBenchmark experimentsCount iterationsCount) ∧
    (∀ e, e < experimentsCount →
      [Event.setupBenchmark, Event.setupExperiment e, Event.tearDownExperiment e,
        Event.tearDownBenchmark].Sublist (runBenchmark experimentsCount iterationsCount)) ∧
    (∀ e i, e < experimentsCount → i < iterationsCount e →
      [Event.setupExperiment e, Event.setupIteration e i, Event.execIteration e i,
        Event.tearDownIteration e i, Event.tearDownExperiment e].Sublist
        (runBenchmark experimentsCount iterationsCount)) ∧
    (∀ e e', e < e' → e' < experimentsCount →
      [Event.tearDownExperiment e, Event.setupExperiment e'].Sublist
        (runBenchmark experimentsCount iterationsCount)) ∧
    (∀ e i i', e < experimentsCount → i < i' → i' < iterationsCount e →
      [Event.tearDownIteration e i, Event.setupIteration e i'].Sublist
        (runBenchmark experimentsCount iterationsCount)) := by
  have hbody : ∀ l : List Event,
      l.Sublist ((List.range experimentsCount).flatMap (experimentScope iterationsCount)) →
      l.Sublist (runBenchmark experimentsCount iterationsCount) := by
    intro l hl
    unfold runBenchmark
    exact List.Sublist.cons _ (List.sublist_append_of_sublist_left hl)
  refine ⟨runBenchmark_nodup _ _, ?_, ?_, ?_, ?_, ?_⟩
  · unfold runBenchmark
    exact List.Sublist.cons₂ _ (List.sublist_append_of_sublist_right (List.Sublist.refl _))
  · intro e he
    have h1 : [Event.setupExperiment e, Event.tearDownExperiment e].Sublist
        (experimentScope iterationsCount e) := by
      unfold experimentScope
      exact List.Sublist.cons₂ _ (List.sublist_append_of_sublist_right (List.Sublist.refl _))
    have h2 := h1.trans (experimentScope_sublist iterationsCount he)
    unfold runBenchmark
    exact List.Sublist.cons₂ _ (List.Sublist.append h2 (List.Sublist.refl _))
  · intro e i he hi
    apply hbody
    refine List.Sublist.trans ?_ (experimentScope_sublist iterationsCount he)
    unfold experimentScope
    have h1 : (iterationScope e i).Sublist
        ((List.range (iterationsCount e)).flatMap (iterationScope e)) :=
      flatMap_single_sublist (iterationScope e) hi
    have h2 : (iterationScope e i ++ [Event.tearDownExperiment e]).Sublist
        ((List.range (iterationsCount e)).flatMap (iterationScope e)
          ++ [Event.tearDownExperiment e]) :=
      List.Sublist.append h1 (List.Sublist.refl _)
    exact List.Sublist.cons₂ _ h2
  · intro e e' hlt he'
    apply hbody
    refine List.Sublist.trans ?_ (flatMap_pair_sublist (experimentScope iterationsCount) hlt he')
    have h1 : [Event.tearDownExperiment e].Sublist (experimentScope iterationsCount e) := by
      unfold experimentScope
      exact List.Sublist.cons _ (List.sublist_append_of_sublist_right (List.Sublist.refl _))
    have h2 : [Event.setupExperiment e'].Sublist (experimentScope iterationsCount e') := by
      unfold experimentScope
      exact List.Sublist.cons₂ _ (List.nil_sublist _)
    exact List.Sublist.append h1 h2
  · intro e i i' he hlt hi'
    apply hbody
    refine List.Sublist.trans ?_ (experimentScope_sublist iterationsCount he)
    unfold experimentScope
    refine List.Sublist.cons _ (List.sublist_append_of_sublist_left ?_)
    refine List.Sublist.trans ?_ (flatMap_pair_sublist (iterationScope e) hlt hi')
    have h1 : [Event.tearDownIteration e i].Sublist (iterationScope e i) := by
      unfold iterationScope
      exact List.Sublist.cons _ (List.Sublist.cons _ (List.Sublist.refl _))
    have h2 : [Event.setupIteration e i'].Sublist (iterationScope e i') := by
      unfold iterationScope
      exact List.Sublist.cons₂ _ (List.nil_sublist _)
    exact List.Sublist.append h1 h2

/-- Witness of C7: the call sequence of a run with two experiments of one and two iterations,
in which experiment `0` is torn down before experiment `1` is set up. -/
theorem lifecycle_well_nested_witness :
    runBenchmark 2 (fun e => e + 1)
      = [Event.setupBenchmark,
          Event.setupExperiment 0,
            Event.setupIteration 0 0, Event.execIteration 0 0, Event.tearDownIteration 0 0,
          Event.tearDownExperiment 0,
          Event.setupExperiment 1,
            Event.setupIteration 1 0, Event.execIteration 1 0, Event.tearDownIteration 1 0,
            Event.setupIteration 1 1, Event.execIteration 1 1, Event.tearDownIteration 1 1,
          Event.tearDownExperiment 1,
         Event.tearDownBenchmark] ∧
    [Event.tearDownExperiment 0, Event.setupExperiment 1].Sublist
      (runBenchmark 2 (fun e => e + 1)) :=
  ⟨by decide,
    (lifecycle_well_nested 2 (fun e => e + 1)).2.2.2.2.1 0 1 (by decide) (by decide)⟩

end benchmark
